import Mathlib

/-!
Verification of the AtlasCare HCS payload codec and status-reconciliation
service. The JavaScript source is shallowly embedded: JS objects become
association lists of string keys to a `JsVal` value type, JS `Map`s become
association lists, and external library calls (SHA-256, `Date`, the
floating-point haversine trigonometry) are abstracted as function
parameters, while all control flow and data manipulation of the repository
code itself is translated faithfully.
-/

namespace AtlasCare

/-- Model of a JavaScript value as it occurs in the codec's payloads.
Numbers are rationals (the codec never produces NaN or infinities on the
paths modelled here; where a JS builtin could produce NaN we model the
result with `Option` at the call site). -/
inductive JsVal where
  | num (q : ℚ)
  | str (s : String)
  | bool (b : Bool)
  | null
  | undefVal
  | obj (fields : List (String × JsVal))

/-- A JavaScript object: insertion-ordered association list. -/
abbrev JsObj := List (String × JsVal)

/-- First-match lookup in an association list (JS property read / Map.get;
absence plays the role of `undefined`). -/
def alGet {α : Type} : List (String × α) → String → Option α
  | [], _ => none
  | (k, v) :: rest, key => if k = key then some v else alGet rest key

/-- JS property write / Map.set: update in place if the key exists
(preserving its position, as JS insertion order does), else append. -/
def alSet {α : Type} : List (String × α) → String → α → List (String × α)
  | [], key, v => [(key, v)]
  | (k, w) :: rest, key, v =>
    if k = key then (k, v) :: rest else (k, w) :: alSet rest key v

/-- JS Map.delete: remove the entry for a key. -/
def alDelete {α : Type} : List (String × α) → String → List (String × α)
  | [], _ => []
  | (k, w) :: rest, key =>
    if k = key then rest else (k, w) :: alDelete rest key

/-- JavaScript truthiness of a value. -/
def truthy : JsVal → Bool
  | .num q => q ≠ 0
  | .str s => s ≠ ""
  | .bool b => b
  | .null => false
  | .undefVal => false
  | .obj _ => true

/-- Truthiness of a possibly-absent value (`undefined` is falsy). -/
def truthyO : Option JsVal → Bool
  | some v => truthy v
  | none => false

/-- String value of a payload field; hash / nonce / signature fields are
strings in every event the application builds, and a missing field behaves
like the empty string on every path the codec takes (`!hash` guards). -/
def getStr (o : JsObj) (k : String) : String :=
  match alGet o k with
  | some (.str s) => s
  | _ => ""

/- ------------------------------------------------------------------ -/
/- String primitives                                                   -/
/- ------------------------------------------------------------------ -/

/-!
The JS string operations are re-implemented structurally over the
character list of a `String`, so that every codec function evaluates by
kernel reduction on concrete inputs. All payload strings are ASCII, so
JS UTF-16 lengths and slices agree with character counts.
-/

/-- String slice `s.slice(0, n)` / first `n` characters. -/
def strTake (s : String) (n : ℕ) : String := ⟨s.data.take n⟩

/-- Drop the first `n` characters. -/
def strDrop (s : String) (n : ℕ) : String := ⟨s.data.drop n⟩

/-- JS `s.startsWith(pre)`. -/
def strStartsWith (s pre : String) : Bool := pre.data.isPrefixOf s.data

/-- JS `s.toLowerCase()` (ASCII). -/
def strToLower (s : String) : String := ⟨s.data.map Char.toLower⟩

/-- JS `s.includes(c)` for one character. -/
def strContainsChar (s : String) (c : Char) : Bool := s.data.contains c

/-- JS whitespace for trimming. -/
def isWsp (c : Char) : Bool := c = ' ' ∨ c = '\t' ∨ c = '\n' ∨ c = '\r'

/-- JS `s.trim()`. -/
def strTrim (s : String) : String :=
  ⟨((s.data.dropWhile isWsp).reverse.dropWhile isWsp).reverse⟩

/-- JS `s.split(sep)` for a one-character separator. -/
def splitOnChar (sep : Char) : List Char → List (List Char)
  | [] => [[]]
  | c :: rest =>
    let r := splitOnChar sep rest
    if c = sep then [] :: r
    else
      match r with
      | h :: t => (c :: h) :: t
      | [] => [[c]]

/-- JS `s.split(',')`. -/
def strSplitComma (s : String) : List String :=
  (splitOnChar ',' s.data).map fun l => ⟨l⟩

/- ------------------------------------------------------------------ -/
/- hashUtils.js                                                        -/
/- ------------------------------------------------------------------ -/

/-- The regex replace `/^(sha256:|hex:)/` used by `truncateHash` and
`removeHashPrefix`: strips one recognized tag from the front. -/
def stripHashTag (s : String) : String :=
  if strStartsWith s "sha256:" then strDrop s 7
  else if strStartsWith s "hex:" then strDrop s 4
  else s

/-- The regex test `/^[0-9a-fA-F]+$/`. -/
def isHexString (s : String) : Bool :=
  s.data.length > 0 && s.data.all fun c =>
    c.isDigit || ( 'a' ≤ c && c ≤ 'f') || ( 'A' ≤ c && c ≤ 'F')

/-- `truncateHash(fullHash, length)` from hashUtils.js: strip a recognized
prefix, keep the first `length` hex characters lowercased; on non-hex
input return a best-effort slice without lowercasing. The empty string
models the JS falsy guard (`if (!fullHash) return ''`). -/
def truncateHash (fullHash : String) (length : ℕ) : String :=
  if fullHash = "" then ""
  else
    let cleaned := stripHashTag fullHash
    if isHexString cleaned then strToLower (strTake cleaned length)
    else strTake cleaned length

/-- `removeHashPrefix(hash)` from hashUtils.js. -/
def removeHashPrefix (hash : String) : String :=
  if hash = "" then "" else stripHashTag hash

/-- The truncated-to-full hash lookup table (a JS `Map<string,string>`). -/
abbrev Lookup := List (String × String)

/-- `hashAndStore(data, lookupMap, truncateLength)` from hashUtils.js.
The SHA-256 digest (node `crypto`, external to the repository) is passed
in as the function `sha`. Returns `((full, truncated), updated table)`.
The collision test mirrors `existing && existing !== full`: a falsy
(empty) stored value does not count as a collision. -/
def hashAndStore (sha : String → String) (data : String)
    (lookupMap : Option Lookup) (truncateLength : ℕ) :
    (String × String) × Option Lookup :=
  let full := sha data
  let truncated := truncateHash full truncateLength
  match lookupMap with
  | some m =>
    match alGet m truncated with
    | some existing =>
      if existing ≠ "" ∧ existing ≠ full then
        let longerTruncated := truncateHash full (truncateLength + 4)
        ((full, longerTruncated), some (alSet m longerTruncated full))
      else ((full, truncated), some (alSet m truncated full))
    | none => ((full, truncated), some (alSet m truncated full))
  | none => ((full, truncated), none)

/- ------------------------------------------------------------------ -/
/- geotagMapper.js                                                     -/
/- ------------------------------------------------------------------ -/

/-- One entry of the `MOROCCAN_CITIES` catalogue. -/
structure City where
  code : String
  name : String
  lat : ℚ
  lng : ℚ
  radius : ℚ

/-- The fixed city catalogue, in source order (order is significant:
first radius match wins). -/
def MOROCCAN_CITIES : List City := [
  ⟨"MA-CAS", "Casablanca", 33.5731, -7.5898, 30⟩,
  ⟨"MA-RAB", "Rabat", 34.0209, -6.8416, 25⟩,
  ⟨"MA-FES", "Fes", 34.0181, -5.0078, 20⟩,
  ⟨"MA-MAR", "Marrakech", 31.6295, -7.9811, 25⟩,
  ⟨"MA-TAN", "Tangier", 35.7595, -5.8340, 20⟩,
  ⟨"MA-SAL", "Sale", 34.0531, -6.7985, 15⟩,
  ⟨"MA-MKN", "Meknes", 33.8935, -5.5473, 15⟩,
  ⟨"MA-OUJ", "Oujda", 34.6867, -1.9114, 15⟩,
  ⟨"MA-KEN", "Kenitra", 34.2610, -6.5802, 15⟩,
  ⟨"MA-TET", "Tetouan", 35.5889, -5.3626, 15⟩,
  ⟨"MA-SAF", "Safi", 32.3008, -9.2272, 15⟩,
  ⟨"MA-AGD", "Agadir", 30.4278, -9.5981, 20⟩,
  ⟨"MA-BEN", "Beni Mellal", 32.3394, -6.3498, 15⟩,
  ⟨"MA-NAD", "Nador", 35.1681, -2.9333, 15⟩,
  ⟨"MA-TAZ", "Taza", 34.2133, -4.0103, 15⟩,
  ⟨"MA-KHO", "Khouribga", 32.8811, -6.9063, 15⟩,
  ⟨"MA-LAA", "Laayoune", 27.1536, -13.1994, 20⟩]

/-- `FALLBACK_CODE` from geotagMapper.js. -/
def FALLBACK_CODE : String := "MA-UNK"

/-- A JavaScript number-ish value reaching `coordsToCity`: missing
(`undefined`), `NaN` (from a failed parse), or an actual number. -/
inductive NumLike where
  | undefVal
  | nan
  | q (x : ℚ)

/-- Truthiness of a `NumLike` (`undefined`, `NaN` and `0` are falsy). -/
def nlTruthy : NumLike → Bool
  | .undefVal => false
  | .nan => false
  | .q x => x ≠ 0

/-- The loop of `coordsToCity`: first city whose (abstract haversine)
distance is within its radius wins; otherwise track the nearest city and
accept it after the loop if within 100 km. The accumulator holds the
nearest city so far with its distance (`none` plays `minDistance =
Infinity`). `hav lat1 lng1 lat2 lng2` abstracts the floating-point
haversine computation (`Math` trigonometry, external to the embedding). -/
def coordsToCityLoop (hav : ℚ → ℚ → ℚ → ℚ → ℚ) (lat lng : ℚ) :
    List City → Option (City × ℚ) → String
  | [], acc =>
    match acc with
    | some (c, d) => if d ≤ 100 then c.code else FALLBACK_CODE
    | none => FALLBACK_CODE
  | city :: rest, acc =>
    let d := hav lat lng city.lat city.lng
    if d ≤ city.radius then city.code
    else
      coordsToCityLoop hav lat lng rest
        (match acc with
         | none => some (city, d)
         | some (c, best) => if d < best then some (city, d) else some (c, best))

/-- `coordsToCity(lat, lng)` from geotagMapper.js. A `NaN` coordinate
passes the truthiness guard but every distance comparison against `NaN`
is false in JS, so the loop falls through to the fallback code; the
embedding takes that shortcut directly. -/
def coordsToCity (hav : ℚ → ℚ → ℚ → ℚ → ℚ) (lat lng : NumLike) : String :=
  if ¬ nlTruthy lat ∨ ¬ nlTruthy lng then FALLBACK_CODE
  else
    match lat, lng with
    | .q la, .q ln => coordsToCityLoop hav la ln MOROCCAN_CITIES none
    | _, _ => FALLBACK_CODE

/-- Digit run to a natural number. -/
def digitsToNat (cs : List Char) : ℕ :=
  cs.foldl (fun a c => a * 10 + (c.toNat - 48)) 0

/-- Model of JavaScript `parseFloat`: skip surrounding whitespace, parse
an optional sign then a decimal number, ignoring trailing junk; `none`
models `NaN` (no leading number). Exponents and `Infinity` are outside
the inputs this codec meets and are not modelled. -/
def jsParseFloat (s : String) : Option ℚ :=
  let t := strTrim s
  let (sign, rest) :=
    if strStartsWith t "-" then ((-1 : ℚ), strDrop t 1)
    else if strStartsWith t "+" then ((1 : ℚ), strDrop t 1)
    else ((1 : ℚ), t)
  let cs := rest.data
  let ip := cs.takeWhile Char.isDigit
  match cs.dropWhile Char.isDigit with
  | '.' :: more =>
    let fp := more.takeWhile Char.isDigit
    if ip = [] ∧ fp = [] then none
    else some (sign * ((digitsToNat ip : ℚ) + (digitsToNat fp : ℚ) / 10 ^ fp.length))
  | _ => if ip = [] then none else some (sign * (digitsToNat ip : ℚ))

/-- Lift a parsed split component to a `NumLike`: a missing component is
`undefined`, a failed parse is `NaN`. -/
def nlOfParsed : Option (Option ℚ) → NumLike
  | none => .undefVal
  | some none => .nan
  | some (some x) => .q x

/-- View of an object field as a `NumLike` for the `{lat, lng}` branch of
`compressGeotag`. Number-convertible values keep their JS `ToNumber`
meaning; a truthy non-numeric value yields `NaN` distances in JS and
hence the fallback code, which the `nan` case reproduces. -/
def numLikeOfVal : Option JsVal → NumLike
  | none => .undefVal
  | some (.num x) => .q x
  | some (.bool b) => if b then .q 1 else .undefVal
  | some (.str s) =>
    if s = "" then .undefVal
    else match jsParseFloat s with
      | some x => .q x
      | none => .nan
  | some _ => .undefVal

/-- `compressGeotag(geotag)` from geotagMapper.js: falsy input falls back;
a string starting with `MA-` passes through; an object with truthy `lat`
and `lng` goes through `coordsToCity`; a string containing a comma is
split and parsed; anything else falls back. -/
def compressGeotag (hav : ℚ → ℚ → ℚ → ℚ → ℚ) (geotag : Option JsVal) : String :=
  if ¬ truthyO geotag then FALLBACK_CODE
  else
    match geotag with
    | some (.str s) =>
      if strStartsWith s "MA-" then s
      else if strContainsChar s ',' then
        let parts := (strSplitComma s).map jsParseFloat
        coordsToCity hav (nlOfParsed parts[0]?) (nlOfParsed parts[1]?)
      else FALLBACK_CODE
    | some (.obj fields) =>
      if truthyO (alGet fields "lat") && truthyO (alGet fields "lng") then
        coordsToCity hav (numLikeOfVal (alGet fields "lat"))
          (numLikeOfVal (alGet fields "lng"))
      else FALLBACK_CODE
    | _ => FALLBACK_CODE

/- ------------------------------------------------------------------ -/
/- hcsPayloadCompressor.js                                             -/
/- ------------------------------------------------------------------ -/

/-- Abstraction of the JavaScript `Date` builtin used by the timestamp
transforms: current time, ISO parsing and formatting are external to the
repository code and are supplied as parameters. -/
structure TimeCtx where
  nowEpoch : ℤ
  nowIso : String
  epochOfVal : JsVal → ℤ
  isoOfVal : JsVal → String

/-- `compressTimestamp(isoTimestamp)`: falsy input yields the current
epoch, otherwise `floor(Date.parse / 1000)` (modelled by `epochOfVal`). -/
def compressTimestamp (ctx : TimeCtx) (iso : Option JsVal) : ℤ :=
  match iso with
  | none => ctx.nowEpoch
  | some v => if truthy v then ctx.epochOfVal v else ctx.nowEpoch

/-- `decompressTimestamp(epoch)`: falsy input yields the current ISO
string, otherwise `new Date(epoch * 1000).toISOString()` (modelled by
`isoOfVal`). -/
def decompressTimestamp (ctx : TimeCtx) (epoch : JsVal) : String :=
  if truthy epoch then ctx.isoOfVal epoch else ctx.nowIso

/-- The `EVENT_TYPES` table: property access keyed by a JS value (only
the ten string keys exist; any other value coerces to an absent key). -/
def eventTypesGet : JsVal → Option String
  | .str "issued" => some "i"
  | .str "verified" => some "v"
  | .str "paid" => some "p"
  | .str "dispensed" => some "d"
  | .str "cancelled" => some "c"
  | .str "i" => some "issued"
  | .str "v" => some "verified"
  | .str "p" => some "paid"
  | .str "d" => some "dispensed"
  | .str "c" => some "cancelled"
  | _ => none

/-- `EVENT_TYPES[fullPayload.eventType] || dflt` as used by each variant
compressor. -/
def eventTypeCode (o : JsObj) (dflt : String) : String :=
  match alGet o "eventType" with
  | some v => (eventTypesGet v).getD dflt
  | none => dflt

/-- The `PAYMENT_METHODS` table: keys `cash/card/hbar` map to numbers,
the numeric keys 1/2/3 (reachable through JS key coercion also by the
strings "1"/"2"/"3") map back to the method names. -/
def paymentMethodsGet : JsVal → Option JsVal
  | .str "cash" => some (.num 1)
  | .str "card" => some (.num 2)
  | .str "hbar" => some (.num 3)
  | .str "1" => some (.str "cash")
  | .str "2" => some (.str "card")
  | .str "3" => some (.str "hbar")
  | .num x =>
    if x = 1 then some (.str "cash")
    else if x = 2 then some (.str "card")
    else if x = 3 then some (.str "hbar")
    else none
  | _ => none

/-- JS `a || b` over possibly-absent values. -/
def orVal (a b : Option JsVal) : Option JsVal :=
  if truthyO a then a else b

/-- `Math.round` (round half toward positive infinity). -/
def jsRound (x : ℚ) : ℤ := ⌊x + 1 / 2⌋

/-- JS `ToNumber` coercion for the values `Math.round` can meet here;
`none` models `NaN`. -/
def jsToNumber : JsVal → Option ℚ
  | .num x => some x
  | .bool b => some (if b then 1 else 0)
  | .null => some 0
  | .str s => if strTrim s = "" then some 0 else jsParseFloat s
  | _ => none

/-- The field value `fullPayload.nonce ? fullPayload.nonce.slice(0, 6) : ''`. -/
def nonceSlice (o : JsObj) : String :=
  if truthyO (alGet o "nonce") then strTake (getStr o "nonce") 6 else ""

/-- The `maxDispenses || 1` and `dispenseCount || 0` defaults: keep the
stored value when truthy, else the default. -/
def fieldOrDefault (o : JsObj) (k : String) (dflt : JsVal) : JsVal :=
  match alGet o k with
  | some v => if truthy v then v else dflt
  | none => dflt

/-- Append the `s` field if the payload has a truthy signature
(`compressed.s = removeHashPrefix(fullPayload.signature)`). -/
def withSignature (o : JsObj) (compressed : JsObj) : JsObj :=
  if truthyO (alGet o "signature") then
    alSet compressed "s" (.str (removeHashPrefix (getStr o "signature")))
  else compressed

/-- The guarded lookup write `if (fullPayload.<k>) hashLookup.set(shortVal,
removeHashPrefix(fullPayload.<k>))` shared by the variant compressors. -/
def storeHash (o : JsObj) (k : String) (shortVal : String) (m : Lookup) : Lookup :=
  if truthyO (alGet o k) then alSet m shortVal (removeHashPrefix (getStr o k))
  else m

/-- `compressIssuedMessage(fullPayload, hashLookup)`. Returns the wire
object together with the (possibly updated) lookup table, modelling the
in-place `Map` mutation. -/
def compressIssuedMessage (ctx : TimeCtx) (hav : ℚ → ℚ → ℚ → ℚ → ℚ)
    (o : JsObj) (hashLookup : Option Lookup) : JsObj × Option Lookup :=
  let h := truncateHash (getStr o "hashedPatientId") 8
  let compressed : JsObj := [
    ("e", .str (eventTypeCode o "i")),
    ("t", (alGet o "topicID").getD .undefVal),
    ("ts", .num (compressTimestamp ctx (alGet o "timestamp"))),
    ("u", .num (compressTimestamp ctx (alGet o "validUntil"))),
    ("g", .str (compressGeotag hav (alGet o "geoTag"))),
    ("h", .str h),
    ("md", fieldOrDefault o "maxDispenses" (.num 1)),
    ("dc", fieldOrDefault o "dispenseCount" (.num 0)),
    ("n", .str (nonceSlice o))]
  let compressed := withSignature o compressed
  match hashLookup with
  | some m => (compressed, some (storeHash o "hashedPatientId" h m))
  | none => (compressed, none)

/-- `compressPaidMessage(fullPayload, hashLookup)`. -/
def compressPaidMessage (ctx : TimeCtx) (o : JsObj)
    (hashLookup : Option Lookup) : JsObj × Option Lookup :=
  let a := truncateHash (getStr o "actorIdHash") 8
  let p := truncateHash (getStr o "prevEventHash") 8
  let compressed : JsObj := [
    ("e", .str (eventTypeCode o "p")),
    ("t", (alGet o "topicID").getD .undefVal),
    ("ts", .num (compressTimestamp ctx (alGet o "timestamp"))),
    ("a", .str a),
    ("p", .str p),
    ("n", .str (nonceSlice o))]
  let compressed :=
    match alGet o "amountMAD" with
    | none => compressed
    | some .undefVal => compressed
    | some v => alSet compressed "amt" (.num (jsRound ((jsToNumber v).getD 0)))
  let compressed :=
    match alGet o "method" with
    | some v =>
      if truthy v then alSet compressed "m" ((paymentMethodsGet v).getD v)
      else compressed
    | none => compressed
  let compressed := withSignature o compressed
  match hashLookup with
  | some m =>
    (compressed, some (storeHash o "prevEventHash" p (storeHash o "actorIdHash" a m)))
  | none => (compressed, none)

/-- `compressDispensedMessage(fullPayload, hashLookup)`. -/
def compressDispensedMessage (ctx : TimeCtx) (o : JsObj)
    (hashLookup : Option Lookup) : JsObj × Option Lookup :=
  let a := truncateHash (getStr o "actorIdHash") 8
  let p := truncateHash (getStr o "prevEventHash") 8
  let compressed : JsObj := [
    ("e", .str (eventTypeCode o "d")),
    ("t", (alGet o "topicID").getD .undefVal),
    ("ts", .num (compressTimestamp ctx (alGet o "timestamp"))),
    ("a", .str a),
    ("p", .str p),
    ("dc", fieldOrDefault o "dispenseCount" (.num 0)),
    ("md", fieldOrDefault o "maxDispenses" (.num 1)),
    ("n", .str (nonceSlice o))]
  let compressed := withSignature o compressed
  match hashLookup with
  | some m =>
    (compressed, some (storeHash o "prevEventHash" p (storeHash o "actorIdHash" a m)))
  | none => (compressed, none)

/-- `compressVerifiedMessage(fullPayload, hashLookup)`. -/
def compressVerifiedMessage (ctx : TimeCtx) (o : JsObj)
    (hashLookup : Option Lookup) : JsObj × Option Lookup :=
  let a := truncateHash (getStr o "actorIdHash") 8
  let p := truncateHash (getStr o "prevEventHash") 8
  let compressed : JsObj := [
    ("e", .str (eventTypeCode o "v")),
    ("t", (alGet o "topicID").getD .undefVal),
    ("ts", .num (compressTimestamp ctx (alGet o "timestamp"))),
    ("a", .str a),
    ("p", .str p),
    ("dc", fieldOrDefault o "dispenseCount" (.num 0)),
    ("md", fieldOrDefault o "maxDispenses" (.num 1)),
    ("n", .str (nonceSlice o))]
  let compressed :=
    if truthyO (alGet o "fraudAlert") then alSet compressed "f" (.num 1)
    else compressed
  let compressed := withSignature o compressed
  match hashLookup with
  | some m =>
    (compressed, some (storeHash o "prevEventHash" p (storeHash o "actorIdHash" a m)))
  | none => (compressed, none)

/-- `compressPayload(fullPayload, hashLookup)`: dispatch on
`fullPayload.eventType || fullPayload.e`; the switch matches only the
eight listed strings, everything else logs and returns the input
unchanged. -/
def compressPayload (ctx : TimeCtx) (hav : ℚ → ℚ → ℚ → ℚ → ℚ)
    (o : JsObj) (hashLookup : Option Lookup) : JsObj × Option Lookup :=
  match orVal (alGet o "eventType") (alGet o "e") with
  | some (.str s) =>
    if s = "issued" ∨ s = "i" then compressIssuedMessage ctx hav o hashLookup
    else if s = "paid" ∨ s = "p" then compressPaidMessage ctx o hashLookup
    else if s = "dispensed" ∨ s = "d" then compressDispensedMessage ctx o hashLookup
    else if s = "verified" ∨ s = "v" then compressVerifiedMessage ctx o hashLookup
    else (o, hashLookup)
  | _ => (o, hashLookup)

/-- `REVERSE_FIELD_MAP[shortKey] || shortKey`. -/
def reverseFieldMapGet (k : String) : String :=
  if k = "e" then "eventType"
  else if k = "t" then "topicID"
  else if k = "ts" then "timestamp"
  else if k = "n" then "nonce"
  else if k = "s" then "signature"
  else if k = "u" then "validUntil"
  else if k = "g" then "geoTag"
  else if k = "h" then "hashedPatientId"
  else if k = "md" then "maxDispenses"
  else if k = "dc" then "dispenseCount"
  else if k = "a" then "actorIdHash"
  else if k = "amt" then "amountMAD"
  else if k = "m" then "method"
  else if k = "p" then "prevEventHash"
  else k

/-- One iteration of the decompression loop over `Object.entries`:
`e` expands the event-type code (`EVENT_TYPES[value] || value`), `ts` and
`u` expand epochs to ISO strings, and every other key is renamed through
the reverse field map with its value kept. -/
def decompressEntry (ctx : TimeCtx) (acc : JsObj) (kv : String × JsVal) : JsObj :=
  let (shortKey, value) := kv
  if shortKey = "e" then
    alSet acc "eventType" (match eventTypesGet value with
      | some s => .str s
      | none => value)
  else if shortKey = "ts" then
    alSet acc "timestamp" (.str (decompressTimestamp ctx value))
  else if shortKey = "u" then
    alSet acc "validUntil" (.str (decompressTimestamp ctx value))
  else
    alSet acc (reverseFieldMapGet shortKey) value

/-- The key-renaming loop of `decompressPayload`, starting from the empty
object. -/
def renameStage (ctx : TimeCtx) (o : JsObj) : JsObj :=
  o.foldl (decompressEntry ctx) []

/-- The `if (full.m && PAYMENT_METHODS[full.m]) full.method = ...` step. -/
def methodStage (full : JsObj) : JsObj :=
  match alGet full "m" with
  | some v =>
    if truthy v then
      match paymentMethodsGet v with
      | some w => alSet full "method" w
      | none => full
    else full
  | none => full

/-- One hash expansion: `if (full.<shortK> && hashLookup.has(full.<shortK>))
full.<longK> = sha256: + hashLookup.get(full.<shortK>)`. A `Map` keyed by
strings can only hit when the value under the short key is a string. -/
def expandHashField (m : Lookup) (shortK longK : String) (full : JsObj) : JsObj :=
  match alGet full shortK with
  | some (.str s) =>
    if s ≠ "" then
      match alGet m s with
      | some fullHash => alSet full longK (.str ("sha256:" ++ fullHash))
      | none => full
    else full
  | _ => full

/-- The lookup-expansion block of `decompressPayload` (h, then a, then p),
skipped entirely when no table is supplied. -/
def expandStage (hashLookup : Option Lookup) (full : JsObj) : JsObj :=
  match hashLookup with
  | none => full
  | some m =>
    expandHashField m "p" "prevEventHash"
      (expandHashField m "a" "actorIdHash"
        (expandHashField m "h" "hashedPatientId" full))

/-- `if (full.<k> && !full.<k>.startsWith(pre)) full.<k> = pre + full.<k>`.
The fields involved are strings in every reachable payload. -/
def prefixTag (pre : String) (k : String) (full : JsObj) : JsObj :=
  match alGet full k with
  | some (.str s) =>
    if s ≠ "" ∧ ¬ strStartsWith s pre then alSet full k (.str (pre ++ s))
    else full
  | _ => full

/-- The trailing prefix-restoration block of `decompressPayload`:
`sha256:` onto `hashedPatientId` and `actorIdHash`, `hex:` onto
`signature` (and nothing onto `prevEventHash`). -/
def prefixStage (full : JsObj) : JsObj :=
  prefixTag "hex:" "signature"
    (prefixTag "sha256:" "actorIdHash"
      (prefixTag "sha256:" "hashedPatientId" full))

/-- `decompressPayload(compressedPayload, hashLookup)`: pass through when
the input already has a truthy `eventType`, else rename, expand the
payment method, expand hashes from the lookup and restore prefixes. -/
def decompressPayload (ctx : TimeCtx) (o : JsObj)
    (hashLookup : Option Lookup) : JsObj :=
  if truthyO (alGet o "eventType") then o
  else prefixStage (expandStage hashLookup (methodStage (renameStage ctx o)))

/-- The short-key vocabulary of wire objects produced by the four
variant compressors. -/
def wireKeys : List String :=
  ["e", "t", "ts", "u", "g", "h", "md", "dc", "n", "s", "a", "p", "amt", "m", "f"]

/-- The value transform a single decompression-loop iteration applies
(the key rename itself is `reverseFieldMapGet` for every branch, since
the map already sends e, ts and u to their long names). -/
def stepVal (ctx : TimeCtx) (k : String) (v : JsVal) : JsVal :=
  if k = "e" then
    match eventTypesGet v with
    | some s => .str s
    | none => v
  else if k = "ts" ∨ k = "u" then .str (decompressTimestamp ctx v)
  else v

/-- The optional lookup table has no entry for `s` (covers both the
no-table and purged-entry cases of the graceful-degradation claim). -/
def lookupMisses (L : Option Lookup) (s : String) : Prop :=
  ∀ m, L = some m → alGet m s = none

/- ------------------------------------------------------------------ -/
/- statusReconciliation.js                                             -/
/- ------------------------------------------------------------------ -/

/-- A pending-confirmation record (`pendingConfirmations` map value);
the `metadata` field is opaque baggage and is not modelled. -/
structure PendingConf where
  status : String
  timestamp : ℤ
  retries : ℕ
  confirmed : Bool
deriving DecidableEq

/-- The `pendingConfirmations` map. -/
abbrev PendingMap := List (String × PendingConf)

/-- The topic-status store written through `setTopicStatus`. -/
abbrev Store := List (String × String)

/-- `MAX_RETRIES`. -/
def MAX_RETRIES : ℕ := 5

/-- `DISPENSE_LOCK_TIMEOUT` in milliseconds. -/
def DISPENSE_LOCK_TIMEOUT : ℤ := 30000

/-- `submitStatusUpdate(topicId, newStatus)`: set the status
optimistically and record an unconfirmed pending entry (retry scheduling
is timer plumbing outside the state model). -/
def submitStatusUpdate (now : ℤ) (topicId newStatus : String)
    (store : Store) (pending : PendingMap) : Store × PendingMap :=
  (alSet store topicId newStatus,
   alSet pending topicId ⟨newStatus, now, 0, false⟩)

/-- Outcome of one Mirror Node query: a status string, or a thrown error
(the `catch` branch of `retryConfirmation`). -/
inductive MirrorResult where
  | status (s : String)
  | err

/-- One `retryConfirmation(topicId)` step, with the awaited
`getTopicStatusFromHedera` outcome passed in. Matching status: confirm
and delete. Different concrete status: overwrite the local store, confirm
and delete. Still `unknown`: bump the retry count (rescheduling below the
ceiling is timer plumbing; at the ceiling the code re-asserts
`confirmed = false` and keeps the record). A thrown query error also
bumps the retry count and keeps the record. -/
def retryConfirmation (topicId : String) (mirror : MirrorResult)
    (store : Store) (pending : PendingMap) : Store × PendingMap :=
  match alGet pending topicId with
  | none => (store, pending)
  | some p =>
    if p.confirmed then (store, pending)
    else
      match mirror with
      | .status s =>
        if s = p.status then (store, alDelete pending topicId)
        else if s ≠ "unknown" then
          (alSet store topicId s, alDelete pending topicId)
        else
          (store, alSet pending topicId
            { p with retries := p.retries + 1, confirmed := false })
      | .err =>
        (store, alSet pending topicId { p with retries := p.retries + 1 })

/-- The object returned by `getConfirmationStatus` (absent fields of the
no-pending branch modelled as `none`). -/
structure ConfStatus where
  confirmed : Bool
  status : Option String
  isPending : Bool
  retries : Option ℕ
  age : Option ℤ
deriving DecidableEq

/-- `getConfirmationStatus(topicId)`. -/
def getConfirmationStatus (now : ℤ) (topicId : String)
    (pending : PendingMap) : ConfStatus :=
  match alGet pending topicId with
  | none => ⟨true, none, false, none, none⟩
  | some p => ⟨p.confirmed, some p.status, true, some p.retries, some (now - p.timestamp)⟩

/-- A dispense-lock entry (`activeDispenseOperations` map value). -/
structure DispenseLock where
  pharmacistId : String
  timestamp : ℤ
deriving DecidableEq

/-- The `activeDispenseOperations` map. -/
abbrev LockMap := List (String × DispenseLock)

/-- `acquireDispenseLock(topicId, pharmacistId)`: deny while a lock
younger than the timeout exists; release a stale lock and fall through to
acquisition; otherwise acquire. Returns the grant flag and the updated
map. -/
def acquireDispenseLock (now : ℤ) (topicId pharmacistId : String)
    (locks : LockMap) : Bool × LockMap :=
  match alGet locks topicId with
  | some existing =>
    if now - existing.timestamp > DISPENSE_LOCK_TIMEOUT then
      (true, alSet (alDelete locks topicId) topicId ⟨pharmacistId, now⟩)
    else (false, locks)
  | none => (true, alSet locks topicId ⟨pharmacistId, now⟩)

/-- `releaseDispenseLock(topicId)`. -/
def releaseDispenseLock (topicId : String) (locks : LockMap) : LockMap :=
  alDelete locks topicId

/- ------------------------------------------------------------------ -/
/- Concrete instantiations of the external dependencies, used to       -/
/- evaluate the codec on closed inputs                                 -/
/- ------------------------------------------------------------------ -/

/-- A concrete clock: a fixed instant for `Date.now`, fixed outputs for
the parse/format directions (the claims under test never inspect the
timestamp strings themselves). -/
def ctx0 : TimeCtx := ⟨1700000000, "NOW", fun _ => 1700000000, fun _ => "ISO"⟩

/-- A degenerate haversine stand-in for paths that never consult the
distance (string geotags and fallback paths). -/
def trivHav : ℚ → ℚ → ℚ → ℚ → ℚ := fun _ _ _ _ => 0

/-- A 64-character hex digest used as a concrete patient-id hash. -/
def h64 : String :=
  "0123456789abcdef0123456789abcdef0123456789abcdef0123456789abcdef"

/-- A concrete full-form ISSUED event. -/
def c3event : JsObj := [
  ("eventType", .str "issued"),
  ("topicID", .str "0.0.777"),
  ("timestamp", .str "2025-01-01T00:00:00.000Z"),
  ("validUntil", .str "2025-02-01T00:00:00.000Z"),
  ("geoTag", .str "MA-CAS"),
  ("hashedPatientId", .str ("sha256:" ++ h64)),
  ("maxDispenses", .num 2),
  ("dispenseCount", .num 1),
  ("nonce", .str "abcdef12")]

/-- The compressed form of `c3event` together with the populated lookup
table. -/
def c3wire : JsObj × Option Lookup := compressPayload ctx0 trivHav c3event (some [])

/-- The round-trip result for `c3event`, decompressed with the same
lookup table that compression populated. -/
def c3roundTrip : JsObj := decompressPayload ctx0 c3wire.1 c3wire.2

/- ------------------------------------------------------------------ -/
/- Association-list lemmas                                             -/
/- ------------------------------------------------------------------ -/

theorem alGet_alSet_self {α : Type} (m : List (String × α)) (k : String) (v : α) :
    alGet (alSet m k v) k = some v := by
  induction m with
  | nil => simp [alGet, alSet]
  | cons hd tl ih =>
    obtain ⟨k0, v0⟩ := hd
    by_cases h : k0 = k
    · simp [alGet, alSet, h]
    · simp [alGet, alSet, h, ih]

theorem alGet_alSet_ne {α : Type} (m : List (String × α)) (k q : String) (v : α)
    (h : q ≠ k) : alGet (alSet m k v) q = alGet m q := by
  have hk : k ≠ q := Ne.symm h
  induction m with
  | nil => simp [alGet, alSet, hk]
  | cons hd tl ih =>
    obtain ⟨k0, v0⟩ := hd
    by_cases h1 : k0 = k
    · subst h1
      simp [alGet, alSet, hk]
    · by_cases h2 : k0 = q
      · subst h2
        simp [alGet, alSet, h1]
      · simp [alGet, alSet, h1, h2, ih]

theorem alGet_mem {α : Type} (m : List (String × α)) (k : String) (v : α)
    (h : alGet m k = some v) : (k, v) ∈ m := by
  induction m with
  | nil => simp [alGet] at h
  | cons hd tl ih =>
    obtain ⟨k0, v0⟩ := hd
    by_cases h0 : k0 = k
    · subst h0
      simp [alGet] at h
      simp [h]
    · simp [alGet, h0] at h
      exact List.mem_cons_of_mem _ (ih h)

theorem mem_alSet {α : Type} (m : List (String × α)) (k : String) (v : α)
    (e : String × α) (he : e ∈ alSet m k v) : e ∈ m ∨ e = (k, v) := by
  induction m with
  | nil => simp [alSet] at he; simp [he]
  | cons hd tl ih =>
    obtain ⟨k0, v0⟩ := hd
    by_cases h0 : k0 = k
    · subst h0
      simp [alSet] at he
      rcases he with he | he
      · right; simp [he]
      · left; exact List.mem_cons_of_mem _ he
    · simp [alSet, h0] at he
      rcases he with he | he
      · left; simp [he]
      · rcases ih he with h1 | h1
        · left; exact List.mem_cons_of_mem _ h1
        · right; exact h1

theorem mem_alDelete {α : Type} (m : List (String × α)) (k : String)
    (e : String × α) (he : e ∈ alDelete m k) : e ∈ m := by
  induction m with
  | nil => simp [alDelete] at he
  | cons hd tl ih =>
    obtain ⟨k0, v0⟩ := hd
    by_cases h0 : k0 = k
    · subst h0
      simp [alDelete] at he
      exact List.mem_cons_of_mem _ he
    · simp [alDelete, h0] at he
      rcases he with he | he
      · simp [he]
      · exact List.mem_cons_of_mem _ (ih he)

theorem alGet_eq_none_of_not_mem {α : Type} (m : List (String × α)) (k : String)
    (h : k ∉ m.map Prod.fst) : alGet m k = none := by
  induction m with
  | nil => simp [alGet]
  | cons hd tl ih =>
    obtain ⟨k0, v0⟩ := hd
    rw [List.map_cons, List.mem_cons, not_or] at h
    have h1 : ¬ k0 = k := fun hh => h.1 hh.symm
    simp [alGet, h1, ih h.2]

theorem alGet_alDelete_self_of_nodup {α : Type} (m : List (String × α)) (k : String)
    (h : (m.map Prod.fst).Nodup) : alGet (alDelete m k) k = none := by
  induction m with
  | nil => simp [alDelete, alGet]
  | cons hd tl ih =>
    obtain ⟨k0, v0⟩ := hd
    rw [List.map_cons, List.nodup_cons] at h
    by_cases h0 : k0 = k
    · subst h0
      simp only [alDelete, if_pos rfl]
      exact alGet_eq_none_of_not_mem tl k0 h.1
    · simp [alDelete, h0, alGet, ih h.2]

/- ------------------------------------------------------------------ -/
/- Claim theorems                                                      -/
/- ------------------------------------------------------------------ -/

/-- Claim C1: the payment-method enum is claimed to round-trip
(cash maps to wire code 1 and wire code 1 decompresses back to the
string cash). The compress direction does hold, but decompression leaves
`method` as the number 1: the expansion step tests `full.m` after the
rename loop has already moved the value to `full.method`, so it never
fires. This theorem evaluates both directions at the failing input. -/
theorem c1_payment_method_enum_bug :
    (compressPaidMessage ctx0
        [("eventType", .str "paid"), ("method", .str "cash")] none).1 =
      [("e", .str "p"), ("t", .undefVal), ("ts", .num 1700000000),
       ("a", .str ""), ("p", .str ""), ("n", .str ""), ("m", .num 1)]
    ∧ decompressPayload ctx0 [("e", .str "p"), ("m", .num 1)] none =
      [("eventType", .str "paid"), ("method", .num 1)]
    ∧ JsVal.num 1 ≠ JsVal.str "cash" :=
  ⟨rfl, rfl, fun h => JsVal.noConfusion h⟩

/-- Claim C3: round-trip fidelity. `eventType`, `topicID`,
`maxDispenses` and `dispenseCount` are restored, and compression does
populate the lookup table, but decompression never restores the full
hashed identifier even when handed that same table: the expansion block
tests `full.h` / `full.a` / `full.p` after the rename loop has moved
those values to their long keys, so the lookup is never consulted and
`hashedPatientId` comes back as the 8-character truncation (with the
`sha256:` prefix re-applied). Evaluated here on a concrete ISSUED
event. -/
theorem c3_round_trip_truncates_hash :
    alGet c3roundTrip "eventType" = some (.str "issued")
    ∧ alGet c3roundTrip "topicID" = some (.str "0.0.777")
    ∧ alGet c3roundTrip "maxDispenses" = some (.num 2)
    ∧ alGet c3roundTrip "dispenseCount" = some (.num 1)
    ∧ c3wire.2 = some [("01234567", h64)]
    ∧ alGet c3roundTrip "hashedPatientId" = some (.str "sha256:01234567")
    ∧ ("sha256:01234567" : String) ≠ "sha256:" ++ h64 :=
  ⟨rfl, rfl, rfl, rfl, rfl, rfl, by decide⟩

/-- Two distinct 64-character digests sharing their first 8 hex
characters. -/
def hashA : String :=
  "aaaaaaaa00000000000000000000000000000000000000000000000000000000"

/-- See `hashA`. -/
def hashB : String :=
  "aaaaaaaa11111111111111111111111111111111111111111111111111111111"

/-- A digest function used to evaluate `hashAndStore` on closed inputs
(the real SHA-256 is external to the repository). -/
def sha0 : String → String := fun d => if d = "one" then hashA else hashB

/-- Claim C2, counterexample: the variant compressors write their
truncations into the lookup table with a plain `Map.set` and no
collision check. Compressing an ISSUED event whose patient-id digest
collides on its first 8 characters with an existing entry for a
different digest silently replaces that entry's value. -/
theorem c2_compress_overwrites_colliding_entry :
    (compressIssuedMessage ctx0 trivHav
        [("eventType", .str "issued"), ("hashedPatientId", .str ("sha256:" ++ hashB))]
        (some [("aaaaaaaa", hashA)])).2 = some [("aaaaaaaa", hashB)]
    ∧ hashB ≠ hashA :=
  ⟨rfl, by decide⟩

/-- Claim C2, amended: the collision-safe behaviour the claim describes
holds for the lookup writes performed by `hashAndStore`: when the
freshly truncated key already maps to a different non-empty full hash,
the new digest is stored under the longer `length + 4` truncation, the
colliding short entry keeps its old value, and both values are
retrievable. (The variant compressors' own writes do not go through this
path - see the counterexample.) -/
theorem c2_hashAndStore_never_overwrites
    (sha : String → String) (data : String) (m : Lookup) (len : ℕ)
    (ex t tl : String)
    (ht : truncateHash (sha data) len = t)
    (htl : truncateHash (sha data) (len + 4) = tl)
    (hget : alGet m t = some ex)
    (hex0 : ex ≠ "") (hexf : ex ≠ sha data) (hne : t ≠ tl) :
    hashAndStore sha data (some m) len =
      ((sha data, tl), some (alSet m tl (sha data)))
    ∧ alGet (alSet m tl (sha data)) t = some ex
    ∧ alGet (alSet m tl (sha data)) tl = some (sha data) := by
  refine ⟨?_, ?_, alGet_alSet_self m tl (sha data)⟩
  · simp only [hashAndStore]
    rw [ht, htl, hget]
    simp [hex0, hexf]
  · rw [alGet_alSet_ne m tl t (sha data) hne, hget]

/-- Witness for `c2_hashAndStore_never_overwrites` at a concrete
colliding table. -/
theorem c2_hashAndStore_never_overwrites_witness :
    hashAndStore sha0 "two" (some [("aaaaaaaa", hashA)]) 8 =
      ((sha0 "two", "aaaaaaaa1111"),
        some (alSet [("aaaaaaaa", hashA)] "aaaaaaaa1111" (sha0 "two")))
    ∧ alGet (alSet [("aaaaaaaa", hashA)] "aaaaaaaa1111" (sha0 "two")) "aaaaaaaa" =
      some hashA
    ∧ alGet (alSet [("aaaaaaaa", hashA)] "aaaaaaaa1111" (sha0 "two")) "aaaaaaaa1111" =
      some (sha0 "two") :=
  c2_hashAndStore_never_overwrites sha0 "two" [("aaaaaaaa", hashA)] 8
    hashA "aaaaaaaa" "aaaaaaaa1111" (by decide) (by decide) (by decide)
    (by decide) (by decide) (by decide)

/-- Claim C5: collision escalation in `hashAndStore`. Storing a first
digest and then a second, distinct digest that shares its 8-character
truncation leaves the first under the 8-character key, stores the second
under its 12-character truncation (which is also the returned truncated
value), and both full digests stay independently retrievable. -/
theorem c5_hashAndStore_collision_escalation
    (sha : String → String) (d1 d2 : String) (m : Lookup) (t8 t12 : String)
    (h1t : truncateHash (sha d1) 8 = t8)
    (h2t : truncateHash (sha d2) 8 = t8)
    (h2l : truncateHash (sha d2) 12 = t12)
    (hne : sha d1 ≠ sha d2)
    (hf0 : sha d1 ≠ "")
    (hkne : t12 ≠ t8)
    (hm8 : alGet m t8 = none)
    (hlen : t12.data.length = 12) :
    hashAndStore sha d1 (some m) 8 = ((sha d1, t8), some (alSet m t8 (sha d1)))
    ∧ hashAndStore sha d2 (some (alSet m t8 (sha d1))) 8 =
        ((sha d2, t12), some (alSet (alSet m t8 (sha d1)) t12 (sha d2)))
    ∧ alGet (alSet (alSet m t8 (sha d1)) t12 (sha d2)) t8 = some (sha d1)
    ∧ alGet (alSet (alSet m t8 (sha d1)) t12 (sha d2)) t12 = some (sha d2)
    ∧ t12.data.length = 12 := by
  refine ⟨?_, ?_, ?_, alGet_alSet_self _ _ _, hlen⟩
  · simp only [hashAndStore]
    rw [h1t, hm8]
  · simp only [hashAndStore]
    rw [h2t, h2l, alGet_alSet_self m t8 (sha d1)]
    simp [hf0, hne]
  · rw [alGet_alSet_ne _ t12 t8 _ (Ne.symm hkne), alGet_alSet_self]

/-- Witness for `c5_hashAndStore_collision_escalation` on two concrete
colliding digests. -/
theorem c5_collision_escalation_witness :
    hashAndStore sha0 "one" (some []) 8 =
      ((sha0 "one", "aaaaaaaa"), some (alSet [] "aaaaaaaa" (sha0 "one")))
    ∧ hashAndStore sha0 "two" (some (alSet [] "aaaaaaaa" (sha0 "one"))) 8 =
        ((sha0 "two", "aaaaaaaa1111"),
          some (alSet (alSet [] "aaaaaaaa" (sha0 "one")) "aaaaaaaa1111" (sha0 "two")))
    ∧ alGet (alSet (alSet [] "aaaaaaaa" (sha0 "one")) "aaaaaaaa1111" (sha0 "two"))
        "aaaaaaaa" = some (sha0 "one")
    ∧ alGet (alSet (alSet [] "aaaaaaaa" (sha0 "one")) "aaaaaaaa1111" (sha0 "two"))
        "aaaaaaaa1111" = some (sha0 "two")
    ∧ ("aaaaaaaa1111" : String).data.length = 12 :=
  c5_hashAndStore_collision_escalation sha0 "one" "two" [] "aaaaaaaa" "aaaaaaaa1111"
    (by decide) (by decide) (by decide) (by decide) (by decide) (by decide)
    (by decide) (by decide)

/-- Claim C6: `compressPayload` on a payload whose dispatch value
(`eventType || e`) is not one of the eight recognized strings - the
`cancelled` / `c` codes included - returns the input object unchanged
and leaves the lookup table untouched. -/
theorem c6_unknown_event_type_passthrough
    (ctx : TimeCtx) (hav : ℚ → ℚ → ℚ → ℚ → ℚ) (o : JsObj) (L : Option Lookup)
    (h : ∀ s : String, orVal (alGet o "eventType") (alGet o "e") = some (.str s) →
      s ∉ (["issued", "i", "paid", "p", "dispensed", "d", "verified", "v"] : List String)) :
    compressPayload ctx hav o L = (o, L) := by
  cases hd : orVal (alGet o "eventType") (alGet o "e") with
  | none => simp [compressPayload, hd]
  | some v =>
    match v with
    | .num q => simp [compressPayload, hd]
    | .bool b => simp [compressPayload, hd]
    | .null => simp [compressPayload, hd]
    | .undefVal => simp [compressPayload, hd]
    | .obj f => simp [compressPayload, hd]
    | .str s =>
      have hs := h s hd
      simp only [List.mem_cons, List.not_mem_nil, or_false, not_or] at hs
      simp [compressPayload, hd, hs.1, hs.2.1, hs.2.2.1, hs.2.2.2.1,
        hs.2.2.2.2.1, hs.2.2.2.2.2.1, hs.2.2.2.2.2.2.1, hs.2.2.2.2.2.2.2]

/-- Witness for `c6_unknown_event_type_passthrough` on the enumerated
but compressor-less cancelled type. -/
theorem c6_unknown_event_type_witness :
    compressPayload ctx0 trivHav [("eventType", JsVal.str "cancelled")] none =
      ([("eventType", JsVal.str "cancelled")], none) :=
  c6_unknown_event_type_passthrough ctx0 trivHav
    [("eventType", JsVal.str "cancelled")] none
    (by
      intro s hs
      simp [orVal, alGet, truthyO, truthy] at hs
      subst hs
      decide)

/-- Claim C8, counterexample: decompression is only a no-op when the
`eventType` value is truthy. An object carrying the long-form key with
an empty-string value is not passed through: its `m` key still gets
renamed to `method`, so the output differs from the input. -/
theorem c8_falsy_event_type_not_identity :
    decompressPayload ctx0 [("eventType", .str ""), ("m", .num 1)] none =
      [("eventType", .str ""), ("method", .num 1)]
    ∧ ([("eventType", JsVal.str ""), ("method", JsVal.num 1)] : JsObj) ≠
      [("eventType", JsVal.str ""), ("m", JsVal.num 1)] := by
  refine ⟨rfl, ?_⟩
  intro h
  have h2 := List.tail_eq_of_cons_eq h
  have h3 := List.head_eq_of_cons_eq h2
  have h4 := congrArg Prod.fst h3
  simp at h4

/-- Claim C8, amended: `decompressPayload` returns its input object
unchanged whenever the input's `eventType` value is truthy (a non-empty
string in particular). -/
theorem c8_decompress_idempotent_on_truthy_eventType
    (ctx : TimeCtx) (o : JsObj) (L : Option Lookup)
    (h : truthyO (alGet o "eventType") = true) :
    decompressPayload ctx o L = o := by
  simp [decompressPayload, h]

/-- Witness for `c8_decompress_idempotent_on_truthy_eventType`. -/
theorem c8_decompress_idempotent_witness :
    decompressPayload ctx0
      [("eventType", JsVal.str "issued"), ("amountMAD", JsVal.num 7)] none =
      [("eventType", JsVal.str "issued"), ("amountMAD", JsVal.num 7)] :=
  c8_decompress_idempotent_on_truthy_eventType ctx0
    [("eventType", JsVal.str "issued"), ("amountMAD", JsVal.num 7)] none (by decide)

/-- Claim C9: dispense-lock mutual exclusion with timeout reclaim. After
a successful acquisition at time `t0`, a second acquisition attempt for
the same topic at time `t1` is denied (leaving the holder in place) when
less than 30 seconds have elapsed, and granted (installing the new
holder) when more than 30 seconds have elapsed. -/
theorem c9_dispense_lock_mutex_and_reclaim
    (locks s1 : LockMap) (topic p1 p2 : String) (t0 t1 : ℤ)
    (hacq : acquireDispenseLock t0 topic p1 locks = (true, s1)) :
    (t1 - t0 < 30000 →
      acquireDispenseLock t1 topic p2 s1 = (false, s1)
      ∧ alGet s1 topic = some ⟨p1, t0⟩)
    ∧ (t1 - t0 > 30000 →
      (acquireDispenseLock t1 topic p2 s1).1 = true
      ∧ alGet (acquireDispenseLock t1 topic p2 s1).2 topic = some ⟨p2, t1⟩) := by
  have hs1 : alGet s1 topic = some ⟨p1, t0⟩ := by
    unfold acquireDispenseLock at hacq
    cases hg : alGet locks topic with
    | none =>
      rw [hg] at hacq
      have := (Prod.mk.injEq _ _ _ _).mp hacq
      rw [← this.2]
      exact alGet_alSet_self _ _ _
    | some ex =>
      rw [hg] at hacq
      dsimp only at hacq
      by_cases hto : t0 - ex.timestamp > DISPENSE_LOCK_TIMEOUT
      · rw [if_pos hto] at hacq
        have := (Prod.mk.injEq _ _ _ _).mp hacq
        rw [← this.2]
        exact alGet_alSet_self _ _ _
      · rw [if_neg hto] at hacq
        exact absurd ((Prod.mk.injEq _ _ _ _).mp hacq).1 (by simp)
  constructor
  · intro hlt
    have hto : ¬ t1 - (⟨p1, t0⟩ : DispenseLock).timestamp > DISPENSE_LOCK_TIMEOUT := by
      simp only [DISPENSE_LOCK_TIMEOUT]
      omega
    refine ⟨?_, hs1⟩
    unfold acquireDispenseLock
    rw [hs1]
    dsimp only
    rw [if_neg hto]
  · intro hgt
    have hto : t1 - (⟨p1, t0⟩ : DispenseLock).timestamp > DISPENSE_LOCK_TIMEOUT := by
      simp only [DISPENSE_LOCK_TIMEOUT]
      omega
    unfold acquireDispenseLock
    rw [hs1]
    dsimp only
    rw [if_pos hto]
    exact ⟨rfl, alGet_alSet_self _ _ _⟩

/-- Witness for `c9_dispense_lock_mutex_and_reclaim`: a fresh lock
denies a second caller at one second, a stale lock is reclaimed at forty
seconds. -/
theorem c9_dispense_lock_witness :
    (acquireDispenseLock 1000 "0.0.9" "ph2" [("0.0.9", ⟨"ph1", 0⟩)] =
      (false, [("0.0.9", ⟨"ph1", 0⟩)]))
    ∧ (acquireDispenseLock 40000 "0.0.9" "ph2" [("0.0.9", ⟨"ph1", 0⟩)]).1 = true :=
  ⟨((c9_dispense_lock_mutex_and_reclaim [] [("0.0.9", ⟨"ph1", 0⟩)]
      "0.0.9" "ph1" "ph2" 0 1000 rfl).1 (by decide)).1,
   ((c9_dispense_lock_mutex_and_reclaim [] [("0.0.9", ⟨"ph1", 0⟩)]
      "0.0.9" "ph1" "ph2" 0 40000 rfl).2 (by decide)).1⟩

/-- Claim C10: the pending-confirmation table only ever holds
unconfirmed records. Submitting keeps the all-unconfirmed invariant, as
does every reconciliation step; a confirmation check that succeeds
(ledger status equals the submitted one) or is overridden (ledger
returns a different concrete status) deletes the topic's record, after
which `getConfirmationStatus` reports confirmed with a null status and
no pending flag; and a check that exhausts the retry ceiling with the
ledger still reporting unknown keeps the record, unconfirmed. -/
theorem c10_pending_confirmations_invariant
    (now : ℤ) (topic : String) (mirror : MirrorResult)
    (store : Store) (pending : PendingMap) :
    (∀ st : String, (∀ e ∈ pending, e.2.confirmed = false) →
      ∀ e ∈ (submitStatusUpdate now topic st store pending).2, e.2.confirmed = false)
    ∧ ((∀ e ∈ pending, e.2.confirmed = false) →
      ∀ e ∈ (retryConfirmation topic mirror store pending).2, e.2.confirmed = false)
    ∧ (∀ p : PendingConf, (pending.map Prod.fst).Nodup →
      alGet pending topic = some p → p.confirmed = false →
      ∀ s : String, mirror = .status s → (s = p.status ∨ s ≠ "unknown") →
        alGet (retryConfirmation topic mirror store pending).2 topic = none
        ∧ getConfirmationStatus now topic
            (retryConfirmation topic mirror store pending).2 =
          ⟨true, none, false, none, none⟩)
    ∧ (∀ p : PendingConf, alGet pending topic = some p → p.confirmed = false →
      mirror = .status "unknown" → p.status ≠ "unknown" →
      p.retries + 1 ≥ MAX_RETRIES →
        alGet (retryConfirmation topic mirror store pending).2 topic =
          some { p with retries := p.retries + 1, confirmed := false }) := by
  refine ⟨?_, ?_, ?_, ?_⟩
  · intro st hinv e he
    simp only [submitStatusUpdate] at he
    rcases mem_alSet _ _ _ _ he with h1 | h1
    · exact hinv e h1
    · rw [h1]
  · intro hinv e he
    unfold retryConfirmation at he
    cases hg : alGet pending topic with
    | none =>
      rw [hg] at he
      exact hinv e he
    | some p =>
      rw [hg] at he
      dsimp only at he
      have hpc : p.confirmed = false := by
        have := hinv (topic, p) (alGet_mem _ _ _ hg)
        exact this
      rw [if_neg (by simp [hpc])] at he
      cases mirror with
      | err =>
        dsimp only at he
        rcases mem_alSet _ _ _ _ he with h1 | h1
        · exact hinv e h1
        · rw [h1]
          exact hpc
      | status s =>
        dsimp only at he
        by_cases hs1 : s = p.status
        · rw [if_pos hs1] at he
          exact hinv e (mem_alDelete _ _ _ he)
        · rw [if_neg hs1] at he
          by_cases hs2 : s ≠ "unknown"
          · rw [if_pos hs2] at he
            exact hinv e (mem_alDelete _ _ _ he)
          · rw [if_neg hs2] at he
            dsimp only at he
            rcases mem_alSet _ _ _ _ he with h1 | h1
            · exact hinv e h1
            · rw [h1]
  · intro p hnd hget hconf s hmir hcase
    subst hmir
    have hdel : alGet (alDelete pending topic) topic = none :=
      alGet_alDelete_self_of_nodup pending topic hnd
    unfold retryConfirmation
    rw [hget]
    dsimp only
    rw [if_neg (by simp [hconf])]
    by_cases hs1 : s = p.status
    · rw [if_pos hs1]
      exact ⟨hdel, by simp [getConfirmationStatus, hdel]⟩
    · have hs2 : s ≠ "unknown" := by
        rcases hcase with hcase | hcase
        · exact absurd hcase hs1
        · exact hcase
      rw [if_neg hs1, if_pos hs2]
      exact ⟨hdel, by simp [getConfirmationStatus, hdel]⟩
  · intro p hget hconf hmir hstat hceil
    subst hmir
    unfold retryConfirmation
    rw [hget]
    dsimp only
    rw [if_neg (by simp [hconf])]
    rw [if_neg (fun hh => hstat hh.symm)]
    rw [if_neg (by simp)]
    exact alGet_alSet_self _ _ _

/-- Witness for `c10_pending_confirmations_invariant`: a confirmation
that matches the submitted status removes the record and
`getConfirmationStatus` then reports confirmed / not pending. -/
theorem c10_pending_confirmations_witness :
    alGet (retryConfirmation "T" (.status "paid") []
      [("T", ⟨"paid", 0, 0, false⟩)]).2 "T" = none
    ∧ getConfirmationStatus 5 "T"
        (retryConfirmation "T" (.status "paid") []
          [("T", ⟨"paid", 0, 0, false⟩)]).2 =
      ⟨true, none, false, none, none⟩ :=
  (c10_pending_confirmations_invariant 5 "T" (.status "paid") []
      [("T", ⟨"paid", 0, 0, false⟩)]).2.2.1
    ⟨"paid", 0, 0, false⟩ (by simp) rfl rfl "paid" rfl (Or.inl rfl)

/- ------------------------------------------------------------------ -/
/- Decompression-loop lemmas (for claim C4)                            -/
/- ------------------------------------------------------------------ -/

theorem decompressEntry_eq (ctx : TimeCtx) (acc : JsObj) (k : String) (v : JsVal) :
    decompressEntry ctx acc (k, v) =
      alSet acc (reverseFieldMapGet k) (stepVal ctx k v) := by
  by_cases h1 : k = "e"
  · subst h1
    simp [decompressEntry, stepVal, reverseFieldMapGet]
  · by_cases h2 : k = "ts"
    · subst h2
      simp [decompressEntry, stepVal, reverseFieldMapGet]
    · by_cases h3 : k = "u"
      · subst h3
        simp [decompressEntry, stepVal, reverseFieldMapGet]
      · simp [decompressEntry, stepVal, h1, h2, h3]

theorem renameFold_get_skip (ctx : TimeCtx) (o : JsObj) (acc : JsObj) (target : String)
    (h : ∀ kv ∈ o, reverseFieldMapGet kv.1 ≠ target) :
    alGet (o.foldl (decompressEntry ctx) acc) target = alGet acc target := by
  induction o generalizing acc with
  | nil => rfl
  | cons hd tl ih =>
    obtain ⟨k, v⟩ := hd
    rw [List.foldl_cons,
      ih _ fun kv hkv => h kv (List.mem_cons_of_mem _ hkv),
      decompressEntry_eq]
    exact alGet_alSet_ne _ _ _ _ (Ne.symm (h (k, v) (List.mem_cons_self _ _)))

theorem renameFold_get_found (ctx : TimeCtx) (o₁ o₂ : JsObj) (k : String) (v : JsVal)
    (acc : JsObj) (target : String)
    (hk : reverseFieldMapGet k = target)
    (h₁ : ∀ kv ∈ o₁, reverseFieldMapGet kv.1 ≠ target)
    (h₂ : ∀ kv ∈ o₂, reverseFieldMapGet kv.1 ≠ target) :
    alGet ((o₁ ++ (k, v) :: o₂).foldl (decompressEntry ctx) acc) target =
      some (stepVal ctx k v) := by
  induction o₁ generalizing acc with
  | nil =>
    rw [List.nil_append, List.foldl_cons,
      renameFold_get_skip ctx o₂ _ target h₂, decompressEntry_eq, hk]
    exact alGet_alSet_self _ _ _
  | cons hd tl ih =>
    rw [List.cons_append, List.foldl_cons]
    exact ih _ fun kv hkv => h₁ kv (List.mem_cons_of_mem _ hkv)

theorem alGet_split {α : Type} (m : List (String × α)) (k : String) (v : α)
    (h : alGet m k = some v) :
    ∃ m₁ m₂, m = m₁ ++ (k, v) :: m₂ ∧ ∀ e ∈ m₁, e.1 ≠ k := by
  induction m with
  | nil => simp [alGet] at h
  | cons hd tl ih =>
    obtain ⟨k0, v0⟩ := hd
    by_cases h0 : k0 = k
    · subst h0
      simp [alGet] at h
      exact ⟨[], tl, by simp [h], by simp⟩
    · simp only [alGet, if_neg h0] at h
      obtain ⟨m₁, m₂, heq, hne⟩ := ih h
      refine ⟨(k0, v0) :: m₁, m₂, by simp [heq], ?_⟩
      intro e he
      rcases List.mem_cons.mp he with he | he
      · rw [he]
        exact h0
      · exact hne e he

theorem renameStage_get_none_short (ctx : TimeCtx) (o : JsObj) (t : String)
    (hkeys : ∀ kv ∈ o, kv.1 ∈ wireKeys)
    (hne : ∀ k ∈ wireKeys, reverseFieldMapGet k ≠ t) :
    alGet (renameStage ctx o) t = none := by
  unfold renameStage
  rw [renameFold_get_skip ctx o [] t fun kv hkv => hne kv.1 (hkeys kv hkv)]
  rfl

theorem renameStage_get_of_alGet (ctx : TimeCtx) (o : JsObj)
    (short long : String) (v : JsVal)
    (hnd : (o.map Prod.fst).Nodup)
    (hkeys : ∀ kv ∈ o, kv.1 ∈ wireKeys)
    (hget : alGet o short = some v)
    (hlong : reverseFieldMapGet short = long)
    (huniq : ∀ k ∈ wireKeys, reverseFieldMapGet k = long → k = short) :
    alGet (renameStage ctx o) long = some (stepVal ctx short v) := by
  obtain ⟨o₁, o₂, heq, ho₁⟩ := alGet_split o short v hget
  subst heq
  rw [List.map_append, List.map_cons] at hnd
  have hsub : (short :: o₂.map Prod.fst).Nodup :=
    List.Nodup.sublist (List.sublist_append_right _ _) hnd
  rw [List.nodup_cons] at hsub
  have h₁ : ∀ kv ∈ o₁, reverseFieldMapGet kv.1 ≠ long := by
    intro kv hkv hct
    have hw : kv.1 ∈ wireKeys := hkeys kv (by simp [hkv])
    exact ho₁ kv hkv (huniq kv.1 hw hct)
  have h₂ : ∀ kv ∈ o₂, reverseFieldMapGet kv.1 ≠ long := by
    intro kv hkv hct
    have hw : kv.1 ∈ wireKeys := hkeys kv (by simp [hkv])
    have hk : kv.1 = short := huniq kv.1 hw hct
    exact hsub.1 (hk ▸ List.mem_map.mpr ⟨kv, hkv, rfl⟩)
  exact renameFold_get_found ctx o₁ o₂ short v [] long hlong h₁ h₂

theorem methodStage_get_ne (full : JsObj) (target : String)
    (h : target ≠ "method") :
    alGet (methodStage full) target = alGet full target := by
  unfold methodStage
  cases hv : alGet full "m" with
  | none => rfl
  | some v =>
    dsimp only
    by_cases ht : truthy v = true
    · rw [if_pos ht]
      cases paymentMethodsGet v with
      | none => rfl
      | some w => exact alGet_alSet_ne _ _ _ _ h
    · rw [if_neg ht]

theorem expandHashField_of_none (m : Lookup) (shortK longK : String) (full : JsObj)
    (h : alGet full shortK = none) :
    expandHashField m shortK longK full = full := by
  unfold expandHashField
  rw [h]

theorem prefixTag_get_ne (pre k target : String) (full : JsObj) (h : target ≠ k) :
    alGet (prefixTag pre k full) target = alGet full target := by
  unfold prefixTag
  cases hv : alGet full k with
  | none => rfl
  | some v =>
    cases v with
    | str s =>
      dsimp only
      by_cases hc : s ≠ "" ∧ ¬ strStartsWith s pre = true
      · rw [if_pos hc]
        exact alGet_alSet_ne _ _ _ _ h
      · rw [if_neg hc]
    | num q => rfl
    | bool b => rfl
    | null => rfl
    | undefVal => rfl
    | obj f => rfl

theorem prefixTag_get_self (pre k : String) (full : JsObj) (s : String)
    (hv : alGet full k = some (.str s)) (h0 : s ≠ "")
    (hp : strStartsWith s pre = false) :
    alGet (prefixTag pre k full) k = some (.str (pre ++ s)) := by
  unfold prefixTag
  rw [hv]
  dsimp only
  rw [if_pos ⟨h0, by simp [hp]⟩]
  exact alGet_alSet_self _ _ _

theorem wireKeys_rename_ne_short :
    ∀ k ∈ wireKeys, reverseFieldMapGet k ≠ "h" ∧ reverseFieldMapGet k ≠ "a"
      ∧ reverseFieldMapGet k ≠ "p" := by decide

theorem wireKeys_preimage_unique :
    ∀ k ∈ wireKeys,
      (reverseFieldMapGet k = "hashedPatientId" → k = "h")
      ∧ (reverseFieldMapGet k = "actorIdHash" → k = "a")
      ∧ (reverseFieldMapGet k = "prevEventHash" → k = "p") := by decide

/-- Claim C4, counterexample: on a lookup miss the previous-event hash
is retained but does not get the `sha256:` prefix - the trailing
prefix-restoration block covers `hashedPatientId` and `actorIdHash`
only. -/
theorem c4_prev_hash_not_prefixed :
    decompressPayload ctx0 [("e", .str "p"), ("p", .str "abcd1234")] (some []) =
      [("eventType", .str "paid"), ("prevEventHash", .str "abcd1234")]
    ∧ strStartsWith "abcd1234" "sha256:" = false :=
  ⟨rfl, rfl⟩

/-- Claim C4, amended: for every wire object (unique keys drawn from the
wire vocabulary) whose lookup misses the truncated value, decompression
completes and retains the truncated value; for the patient-id key `h`
and the actor-id key `a` the retained value gets the `sha256:` prefix,
while for the previous-event-hash key `p` the truncated value is
retained as-is, without the prefix. -/
theorem c4_lookup_miss_graceful
    (ctx : TimeCtx) (o : JsObj) (L : Option Lookup)
    (hnd : (o.map Prod.fst).Nodup)
    (hkeys : ∀ kv ∈ o, kv.1 ∈ wireKeys) :
    (∀ hv : String, alGet o "h" = some (.str hv) → hv ≠ "" →
      strStartsWith hv "sha256:" = false → lookupMisses L hv →
      alGet (decompressPayload ctx o L) "hashedPatientId" =
        some (.str ("sha256:" ++ hv)))
    ∧ (∀ av : String, alGet o "a" = some (.str av) → av ≠ "" →
      strStartsWith av "sha256:" = false → lookupMisses L av →
      alGet (decompressPayload ctx o L) "actorIdHash" =
        some (.str ("sha256:" ++ av)))
    ∧ (∀ pv : String, alGet o "p" = some (.str pv) → lookupMisses L pv →
      alGet (decompressPayload ctx o L) "prevEventHash" = some (.str pv)) := by
  have hev : alGet o "eventType" = none := by
    apply alGet_eq_none_of_not_mem
    intro hmem
    obtain ⟨kv, hkv, hfst⟩ := List.mem_map.mp hmem
    have hw := hkeys kv hkv
    rw [hfst] at hw
    exact absurd hw (by decide)
  have hdec : decompressPayload ctx o L =
      prefixStage (expandStage L (methodStage (renameStage ctx o))) := by
    unfold decompressPayload
    rw [hev]
    rfl
  have hH : alGet (methodStage (renameStage ctx o)) "h" = none := by
    rw [methodStage_get_ne _ _ (by decide)]
    exact renameStage_get_none_short ctx o "h" hkeys
      fun k hk => (wireKeys_rename_ne_short k hk).1
  have hA : alGet (methodStage (renameStage ctx o)) "a" = none := by
    rw [methodStage_get_ne _ _ (by decide)]
    exact renameStage_get_none_short ctx o "a" hkeys
      fun k hk => (wireKeys_rename_ne_short k hk).2.1
  have hP : alGet (methodStage (renameStage ctx o)) "p" = none := by
    rw [methodStage_get_ne _ _ (by decide)]
    exact renameStage_get_none_short ctx o "p" hkeys
      fun k hk => (wireKeys_rename_ne_short k hk).2.2
  have hexp : expandStage L (methodStage (renameStage ctx o)) =
      methodStage (renameStage ctx o) := by
    cases L with
    | none => rfl
    | some m =>
      unfold expandStage
      dsimp only
      rw [expandHashField_of_none m "h" _ _ hH,
        expandHashField_of_none m "a" _ _ hA,
        expandHashField_of_none m "p" _ _ hP]
  refine ⟨?_, ?_, ?_⟩
  · intro hv hget h0 hpre _
    have h1 : alGet (methodStage (renameStage ctx o)) "hashedPatientId" =
        some (.str hv) := by
      rw [methodStage_get_ne _ _ (by decide)]
      have := renameStage_get_of_alGet ctx o "h" "hashedPatientId" (.str hv)
        hnd hkeys hget (by decide)
        (fun k hk he => (wireKeys_preimage_unique k hk).1 he)
      simpa [stepVal] using this
    rw [hdec, hexp]
    unfold prefixStage
    rw [prefixTag_get_ne _ _ _ _ (by decide),
      prefixTag_get_ne _ _ _ _ (by decide)]
    exact prefixTag_get_self _ _ _ hv h1 h0 hpre
  · intro av hget h0 hpre _
    have h1 : alGet (methodStage (renameStage ctx o)) "actorIdHash" =
        some (.str av) := by
      rw [methodStage_get_ne _ _ (by decide)]
      have := renameStage_get_of_alGet ctx o "a" "actorIdHash" (.str av)
        hnd hkeys hget (by decide)
        (fun k hk he => (wireKeys_preimage_unique k hk).2.1 he)
      simpa [stepVal] using this
    rw [hdec, hexp]
    unfold prefixStage
    rw [prefixTag_get_ne _ _ _ _ (by decide)]
    exact prefixTag_get_self _ _ _ av
      (by rw [prefixTag_get_ne _ _ _ _ (by decide)]; exact h1) h0 hpre
  · intro pv hget _
    have h1 : alGet (methodStage (renameStage ctx o)) "prevEventHash" =
        some (.str pv) := by
      rw [methodStage_get_ne _ _ (by decide)]
      have := renameStage_get_of_alGet ctx o "p" "prevEventHash" (.str pv)
        hnd hkeys hget (by decide)
        (fun k hk he => (wireKeys_preimage_unique k hk).2.2 he)
      simpa [stepVal] using this
    rw [hdec, hexp]
    unfold prefixStage
    rw [prefixTag_get_ne _ _ _ _ (by decide),
      prefixTag_get_ne _ _ _ _ (by decide),
      prefixTag_get_ne _ _ _ _ (by decide)]
    exact h1

/-- Witness for `c4_lookup_miss_graceful` on a concrete wire object with
an empty lookup table. -/
theorem c4_lookup_miss_witness :
    alGet (decompressPayload ctx0
      [("e", JsVal.str "p"), ("h", JsVal.str "1111aaaa"),
       ("a", JsVal.str "2222bbbb"), ("p", JsVal.str "3333cccc")] (some []))
      "hashedPatientId" = some (JsVal.str "sha256:1111aaaa")
    ∧ alGet (decompressPayload ctx0
      [("e", JsVal.str "p"), ("h", JsVal.str "1111aaaa"),
       ("a", JsVal.str "2222bbbb"), ("p", JsVal.str "3333cccc")] (some []))
      "actorIdHash" = some (JsVal.str "sha256:2222bbbb")
    ∧ alGet (decompressPayload ctx0
      [("e", JsVal.str "p"), ("h", JsVal.str "1111aaaa"),
       ("a", JsVal.str "2222bbbb"), ("p", JsVal.str "3333cccc")] (some []))
      "prevEventHash" = some (JsVal.str "3333cccc") := by
  have h := c4_lookup_miss_graceful ctx0
    [("e", JsVal.str "p"), ("h", JsVal.str "1111aaaa"),
     ("a", JsVal.str "2222bbbb"), ("p", JsVal.str "3333cccc")] (some [])
    (by simp) (by decide)
  refine ⟨h.1 "1111aaaa" rfl (by decide) rfl ?_, h.2.1 "2222bbbb" rfl (by decide) rfl ?_,
    h.2.2 "3333cccc" rfl ?_⟩
  all_goals intro m hm; cases hm; rfl

/- ------------------------------------------------------------------ -/
/- Geotag lemmas (for claim C7)                                        -/
/- ------------------------------------------------------------------ -/

theorem coordsToCityLoop_cons (hav : ℚ → ℚ → ℚ → ℚ → ℚ) (la ln : ℚ)
    (city : City) (rest : List City) (acc : Option (City × ℚ)) :
    coordsToCityLoop hav la ln (city :: rest) acc =
      if hav la ln city.lat city.lng ≤ city.radius then city.code
      else coordsToCityLoop hav la ln rest
        (match acc with
         | none => some (city, hav la ln city.lat city.lng)
         | some (c, best) =>
           if hav la ln city.lat city.lng < best then
             some (city, hav la ln city.lat city.lng)
           else some (c, best)) := rfl

theorem coordsToCityLoop_mem (hav : ℚ → ℚ → ℚ → ℚ → ℚ) (la ln : ℚ)
    (l : List City) (acc : Option (City × ℚ)) :
    coordsToCityLoop hav la ln l acc = FALLBACK_CODE
    ∨ (∃ c ∈ l, coordsToCityLoop hav la ln l acc = c.code)
    ∨ (∃ cd : City × ℚ, acc = some cd
        ∧ coordsToCityLoop hav la ln l acc = cd.1.code) := by
  induction l generalizing acc with
  | nil =>
    cases acc with
    | none => exact Or.inl rfl
    | some cd =>
      obtain ⟨c, d⟩ := cd
      by_cases h : d ≤ 100
      · exact Or.inr (Or.inr ⟨(c, d), rfl, by simp [coordsToCityLoop, h]⟩)
      · exact Or.inl (by simp [coordsToCityLoop, h])
  | cons city rest ih =>
    rw [coordsToCityLoop_cons]
    by_cases h : hav la ln city.lat city.lng ≤ city.radius
    · rw [if_pos h]
      exact Or.inr (Or.inl ⟨city, List.mem_cons_self _ _, rfl⟩)
    · rw [if_neg h]
      have key : ∀ acc2 : Option (City × ℚ),
          (∀ cd : City × ℚ, acc2 = some cd → cd.1 = city ∨ acc = some cd) →
          (coordsToCityLoop hav la ln rest acc2 = FALLBACK_CODE
           ∨ (∃ c ∈ city :: rest, coordsToCityLoop hav la ln rest acc2 = c.code)
           ∨ (∃ cd : City × ℚ, acc = some cd
               ∧ coordsToCityLoop hav la ln rest acc2 = cd.1.code)) := by
        intro acc2 hcd
        rcases ih acc2 with h1 | h1 | h1
        · exact Or.inl h1
        · obtain ⟨c, hc, hec⟩ := h1
          exact Or.inr (Or.inl ⟨c, List.mem_cons_of_mem _ hc, hec⟩)
        · obtain ⟨cd, hcd2, hec⟩ := h1
          rcases hcd cd hcd2 with h2 | h2
          · exact Or.inr (Or.inl ⟨city, List.mem_cons_self _ _, by rw [hec, h2]⟩)
          · exact Or.inr (Or.inr ⟨cd, h2, hec⟩)
      cases acc with
      | none =>
        apply key
        intro cd hcd
        injection hcd with h3
        left
        rw [← h3]
      | some cb =>
        obtain ⟨c0, best⟩ := cb
        dsimp only
        by_cases h4 : hav la ln city.lat city.lng < best
        · rw [if_pos h4]
          apply key
          intro cd hcd
          injection hcd with h3
          left
          rw [← h3]
        · rw [if_neg h4]
          apply key
          intro cd hcd
          right
          exact hcd

theorem coordsToCity_mem (hav : ℚ → ℚ → ℚ → ℚ → ℚ) (lat lng : NumLike) :
    coordsToCity hav lat lng = FALLBACK_CODE
    ∨ coordsToCity hav lat lng ∈ MOROCCAN_CITIES.map City.code := by
  unfold coordsToCity
  by_cases h : ¬ nlTruthy lat = true ∨ ¬ nlTruthy lng = true
  · rw [if_pos h]
    exact Or.inl rfl
  · rw [if_neg h]
    cases lat with
    | undefVal => exact Or.inl rfl
    | nan => exact Or.inl rfl
    | q la =>
      cases lng with
      | undefVal => exact Or.inl rfl
      | nan => exact Or.inl rfl
      | q ln =>
        dsimp only
        rcases coordsToCityLoop_mem hav la ln MOROCCAN_CITIES none with h1 | h1 | h1
        · exact Or.inl h1
        · obtain ⟨c, hc, he⟩ := h1
          exact Or.inr (by rw [he]; exact List.mem_map.mpr ⟨c, hc, rfl⟩)
        · obtain ⟨cd, hcd, _⟩ := h1
          cases hcd

theorem city_codes_wellformed :
    ∀ c ∈ MOROCCAN_CITIES, c.code ≠ "" ∧ strStartsWith c.code "MA-" = true := by
  decide

/-- Claim C7, counterexample: a malformed geotag string that merely
starts with `MA-` passes through unchanged instead of yielding the
fallback code - the passthrough check is a prefix test, not a validity
test. -/
theorem c7_invalid_city_code_passes_through :
    compressGeotag trivHav (some (.str "MA-XYZ")) = "MA-XYZ"
    ∧ "MA-XYZ" ≠ FALLBACK_CODE
    ∧ "MA-XYZ" ∉ MOROCCAN_CITIES.map City.code :=
  ⟨rfl, by decide, by decide⟩

/-- Claim C7, amended: `compressGeotag` is total and never yields
anything but a catalogue city code, the fallback code, or - for any
string starting with `MA-`, valid city code or not - the input itself;
valid city codes pass through; missing / falsy input and malformed plain
strings yield the fallback code. -/
theorem c7_compressGeotag_normalizes :
    (∀ hav : ℚ → ℚ → ℚ → ℚ → ℚ, ∀ c ∈ MOROCCAN_CITIES,
      compressGeotag hav (some (.str c.code)) = c.code)
    ∧ (∀ (hav : ℚ → ℚ → ℚ → ℚ → ℚ) (g : Option JsVal),
      compressGeotag hav g = FALLBACK_CODE
      ∨ compressGeotag hav g ∈ MOROCCAN_CITIES.map City.code
      ∨ (∃ s, g = some (.str s) ∧ strStartsWith s "MA-" = true
          ∧ compressGeotag hav g = s))
    ∧ (∀ hav : ℚ → ℚ → ℚ → ℚ → ℚ,
      compressGeotag hav none = FALLBACK_CODE
      ∧ compressGeotag hav (some .null) = FALLBACK_CODE
      ∧ compressGeotag hav (some (.str "")) = FALLBACK_CODE)
    ∧ (∀ (hav : ℚ → ℚ → ℚ → ℚ → ℚ) (s : String),
      strStartsWith s "MA-" = false → strContainsChar s ',' = false →
      compressGeotag hav (some (.str s)) = FALLBACK_CODE) := by
  refine ⟨?_, ?_, ?_, ?_⟩
  · intro hav c hc
    obtain ⟨h0, hma⟩ := city_codes_wellformed c hc
    simp [compressGeotag, truthyO, truthy, h0, hma]
  · intro hav g
    cases g with
    | none => exact Or.inl rfl
    | some v =>
      cases v with
      | null => exact Or.inl rfl
      | undefVal => exact Or.inl rfl
      | bool b =>
        cases b with
        | false => exact Or.inl rfl
        | true => exact Or.inl rfl
      | num q =>
        by_cases hq : q = 0
        · subst hq
          exact Or.inl rfl
        · exact Or.inl (by simp [compressGeotag, truthyO, truthy, hq])
      | obj fields =>
        by_cases hg : (truthyO (alGet fields "lat")
            && truthyO (alGet fields "lng")) = true
        · have hred : compressGeotag hav (some (.obj fields)) =
              coordsToCity hav (numLikeOfVal (alGet fields "lat"))
                (numLikeOfVal (alGet fields "lng")) := by
            unfold compressGeotag
            rw [if_neg (by simp [truthyO, truthy])]
            dsimp only
            rw [if_pos hg]
          rw [hred]
          rcases coordsToCity_mem hav (numLikeOfVal (alGet fields "lat"))
            (numLikeOfVal (alGet fields "lng")) with h1 | h1
          · exact Or.inl h1
          · exact Or.inr (Or.inl h1)
        · refine Or.inl ?_
          unfold compressGeotag
          rw [if_neg (by simp [truthyO, truthy])]
          dsimp only
          rw [if_neg hg]
      | str s =>
        by_cases h0 : s = ""
        · subst h0
          exact Or.inl rfl
        · by_cases hma : strStartsWith s "MA-" = true
          · exact Or.inr (Or.inr ⟨s, rfl, hma,
              by simp [compressGeotag, truthyO, truthy, h0, hma]⟩)
          · by_cases hcm : strContainsChar s ',' = true
            · have : compressGeotag hav (some (.str s)) =
                  coordsToCity hav
                    (nlOfParsed ((strSplitComma s).map jsParseFloat)[0]?)
                    (nlOfParsed ((strSplitComma s).map jsParseFloat)[1]?) := by
                simp [compressGeotag, truthyO, truthy, h0, hma, hcm]
              rw [this]
              rcases coordsToCity_mem hav
                (nlOfParsed ((strSplitComma s).map jsParseFloat)[0]?)
                (nlOfParsed ((strSplitComma s).map jsParseFloat)[1]?) with h1 | h1
              · exact Or.inl h1
              · exact Or.inr (Or.inl h1)
            · exact Or.inl (by
                simp [compressGeotag, truthyO, truthy, h0, hma, hcm])
  · intro hav
    exact ⟨rfl, rfl, rfl⟩
  · intro hav s hma hcm
    by_cases h0 : s = ""
    · subst h0
      rfl
    · simp [compressGeotag, truthyO, truthy, h0, hma, hcm]

/-- Witness for `c7_compressGeotag_normalizes`: a valid code passes
through, a malformed plain string and a missing geotag fall back. -/
theorem c7_compressGeotag_witness :
    compressGeotag trivHav (some (.str "MA-CAS")) = "MA-CAS"
    ∧ compressGeotag trivHav (some (.str "garbage")) = FALLBACK_CODE
    ∧ compressGeotag trivHav none = FALLBACK_CODE :=
  ⟨c7_compressGeotag_normalizes.1 trivHav
      ⟨"MA-CAS", "Casablanca", 33.5731, -7.5898, 30⟩ (List.mem_cons_self _ _),
   c7_compressGeotag_normalizes.2.2.2 trivHav "garbage" (by decide) (by decide),
   (c7_compressGeotag_normalizes.2.2.1 trivHav).1⟩

end AtlasCare
